import Mathlib

/-!
Shallow embedding of the furniture-survey analysis pipeline
(scripts/data_cleaning.py, scripts/brand_analysis.py,
scripts/preference_analysis.py, scripts/statistical_analysis.py,
scripts/advanced_analysis.py).

Cell values are modelled as lists of characters (`Str`); a missing cell
(pandas NaN) is `Option.none`.  Machine floats are modelled as exact
rationals, and the ASCII fragment of Python's case mapping is used, which
covers every string occurring in this dataset's fixed schema.
-/

/-- A Python string, modelled as its list of characters. -/
abbrev Str := List Char

/-- The whitespace characters stripped by Python's `str.strip()`
(ASCII fragment). -/
def pyIsSpace (c : Char) : Bool :=
  c == ' ' || c == '\t' || c == '\n' || c == '\r' || c == '\x0b' || c == '\x0c'

/-- Python `str.strip()`: drop leading and trailing whitespace. -/
def pyStrip (s : Str) : Str :=
  ((s.dropWhile pyIsSpace).reverse.dropWhile pyIsSpace).reverse

/-- The ASCII upper-to-lower case table used by `str.lower()`. -/
def lowerPairs : List (Char × Char) :=
  [('A', 'a'), ('B', 'b'), ('C', 'c'), ('D', 'd'), ('E', 'e'), ('F', 'f'),
   ('G', 'g'), ('H', 'h'), ('I', 'i'), ('J', 'j'), ('K', 'k'), ('L', 'l'),
   ('M', 'm'), ('N', 'n'), ('O', 'o'), ('P', 'p'), ('Q', 'q'), ('R', 'r'),
   ('S', 's'), ('T', 't'), ('U', 'u'), ('V', 'v'), ('W', 'w'), ('X', 'x'),
   ('Y', 'y'), ('Z', 'z')]

/-- Python `str.lower()` on a single character (ASCII fragment). -/
def pyToLower (c : Char) : Char :=
  (lowerPairs.lookup c).getD c

/-- Python `str.lower()` on a string (ASCII fragment). -/
def pyLower (s : Str) : Str := s.map pyToLower

/-- Python `s.replace(a, '')` for a single character `a`. -/
def removeChar (a : Char) (s : Str) : Str := s.filter (fun c => c != a)

/-- Python `s.replace(a, b)` for single characters `a`, `b`. -/
def replaceChar (a b : Char) (s : Str) : Str :=
  s.map (fun c => if c = a then b else c)

/-- Python `s.replace('  ', ' ')`: one left-to-right, non-overlapping pass
replacing each double space by a single space. -/
def collapseDouble : Str → Str
  | [] => []
  | [c] => [c]
  | c :: d :: rest =>
    if c = ' ' ∧ d = ' ' then ' ' :: collapseDouble rest
    else c :: collapseDouble (d :: rest)

/-- Column-name normalization of `FurnitureDataCleaner._clean_column_names`:
`col.strip().lower().replace('?','').replace('/','_').replace('[','')
.replace(']','').replace('(','').replace(')','').replace(',','')
.replace('  ',' ').replace(' ','_')`. -/
def cleanColumnName (s : Str) : Str :=
  replaceChar ' ' '_'
    (collapseDouble
      (removeChar ','
        (removeChar ')'
          (removeChar '('
            (removeChar ']'
              (removeChar '['
                (replaceChar '/' '_'
                  (removeChar '?' (pyLower (pyStrip s))))))))))

/-- Modelled from the spec's words for claim C4 (refinement comparison):
"trimming, lowercasing, stripping each of the characters `? / [ ] ( ) ,`,
collapsing double spaces, and replacing spaces with underscores" — note the
slash is stripped here, where the code replaces it by an underscore. -/
def specColumnName (s : Str) : Str :=
  replaceChar ' ' '_'
    (collapseDouble
      (removeChar ','
        (removeChar ')'
          (removeChar '('
            (removeChar ']'
              (removeChar '['
                (removeChar '/'
                  (removeChar '?' (pyLower (pyStrip s))))))))))

/-- The characters the spec says never occur in a normalized column key. -/
def forbiddenKeyChars : List Char := ['?', '/', '[', ']', '(', ')', ',']

/-- Parse the numeric-literal fragment accepted by `pd.to_numeric(...,
errors='coerce')` on a string cell: optional surrounding whitespace, an
optional sign, and digits with an optional single decimal point.  Any other
string coerces to missing (`none`), never to an error. -/
def digitsToNat (ds : Str) : ℕ :=
  ds.foldl (fun acc c => acc * 10 + (c.toNat - 48)) 0

/-- Model of `pd.to_numeric(cell, errors='coerce')` for a string cell. -/
def pdToNumeric (s : Str) : Option ℚ :=
  let t := pyStrip s
  let signAndRest : ℚ × Str :=
    match t with
    | '-' :: r => (-1, r)
    | '+' :: r => (1, r)
    | r => (1, r)
  let sign := signAndRest.1
  let t2 := signAndRest.2
  let intPart := t2.takeWhile Char.isDigit
  let rest := t2.dropWhile Char.isDigit
  match rest with
  | [] => if intPart = [] then none else some (sign * digitsToNat intPart)
  | '.' :: fr =>
    let fracPart := fr.takeWhile Char.isDigit
    if fr.dropWhile Char.isDigit ≠ [] then none
    else if intPart = [] ∧ fracPart = [] then none
    else some (sign * ((digitsToNat intPart : ℚ) +
      (digitsToNat fracPart : ℚ) / (10 ^ fracPart.length)))
  | _ => none

/-- Check that `needle` is a prefix of `hay` (character-wise). -/
def strStartsWith : Str → Str → Bool
  | _, [] => true
  | [], _ :: _ => false
  | c :: cs, d :: ds => c == d && strStartsWith cs ds

/-- Substring containment, the semantics of `Series.str.contains` with a
`re.escape`d pattern. -/
def strHasSub (hay needle : Str) : Bool :=
  hay.tails.any (fun t => strStartsWith t needle)

/-- Case-insensitive substring containment: `str.contains(re.escape(choice),
case=False, regex=True)`. -/
def substrCI (hay needle : Str) : Bool :=
  strHasSub (pyLower hay) (pyLower needle)

/-- One 0/1 indicator cell of `_handle_multiple_choice_columns`: the response
is `fillna('')`-defaulted, then matched case-insensitively. -/
def multiChoiceIndicator (resp : Option Str) (choice : Str) : ℕ :=
  if substrCI (resp.getD []) choice then 1 else 0

/-- The apostrophe character (avoids quoting issues in labels). -/
def apos : Char := Char.ofNat 39

/-- Choice labels of `what_type_of_furniture_do_you_prefer`. -/
def furnitureChoices : List Str :=
  ["Modern".toList, "Traditional".toList, "Minimalist".toList,
   "Multipurpose".toList, "Eclectic".toList]

/-- Choice labels of `which_room_do_you_prioritise_when_buying_furniture`. -/
def roomChoices : List Str :=
  ["Living/ Drawing Room".toList, "Bedroom".toList, "Dining Room".toList,
   "Guest Room".toList, "Kid".toList ++ apos :: "s room".toList,
   "Kitchen".toList]

/-- Choice labels of `why_do_you_usually_buy_furniture`. -/
def whyBuyChoices : List Str :=
  ["For home decoration".toList, "For Marriage or Family Changes".toList,
   "When old furniture needs replacement".toList,
   "Moving out and home shifting".toList, "Personal Preference".toList,
   "Style & comfort".toList]

/-- The `age_map` of `FurnitureDataCleaner.__init__`. -/
def ageMap : List (Str × ℚ) :=
  [("Under 18".toList, 17), ("18-24".toList, 21), ("25-34".toList, 29.5),
   ("35-44".toList, 39.5), ("45 and above".toList, 55)]

/-- The `income_map` of `FurnitureDataCleaner.__init__`. -/
def incomeMap : List (Str × ℚ) :=
  [("Below BDT 25,000".toList, 12500), ("BDT 25,001-50,000".toList, 37500),
   ("BDT 50,001-100,000".toList, 75000),
   ("BDT 100,001-200,000".toList, 150000), ("Above 200,000".toList, 250000)]

/-- A raw survey row, restricted to the columns the cleaning pipeline and
the claims touch (the unparsed timestamp column is not modelled; no claim
concerns it).  Field names follow the normalized column keys. -/
structure RawRow where
  buy : Option Str
  ageGroup : Option Str
  incomeRange : Option Str
  familiarityRaw : Option Str
  recommendationRaw : Option Str
  furniturePref : Option Str
  roomPref : Option Str
  whyBuy : Option Str
deriving DecidableEq

/-- A cleaned survey row: text cells scrubbed, indicator columns added,
derived numeric columns added.  `some q` models a present float cell; after
`_handle_missing_values` every numeric cell is present. -/
structure CleanRow where
  buy : Str
  ageGroup : Str
  incomeRange : Str
  familiarityRaw : Str
  recommendationRaw : Str
  furniturePref : Str
  roomPref : Str
  whyBuy : Str
  furnitureInd : List ℕ
  roomInd : List ℕ
  whyInd : List ℕ
  age_numeric : Option ℚ
  income_numeric : Option ℚ
  isho_familiarity_score : Option ℚ
  recommendation_score : Option ℚ
deriving DecidableEq

/-- Pandas `astype(str)` on a cell: a missing cell prints as "nan". -/
def astypeStr : Option Str → Str
  | none => "nan".toList
  | some s => s

/-- Drop the non-ASCII characters, as the regex `[^\x00-\x7F]+` does. -/
def stripNonAscii (s : Str) : Str := s.filter (fun c => c.toNat ≤ 127)

/-- The `_clean_text_columns` treatment of one text cell: `astype(str)`,
remove non-ASCII characters, `str.strip()`. -/
def cleanTextCell (c : Option Str) : Str := pyStrip (stripNonAscii (astypeStr c))

/-- The `_handle_missing_values` policy for a numeric cell: fill missing
with 0 (the filled cell is present afterwards). -/
def fillNumZero (x : Option ℚ) : Option ℚ := some (x.getD 0)

/-- Clean one row: the per-row composition of `_handle_multiple_choice_columns`
(indicators from the raw response), `_create_numeric_features` (from the raw
cells, which run before text cleaning), `_clean_text_columns` and
`_handle_missing_values`, in the order of `run_data_cleaning`. -/
def cleanRow (r : RawRow) : CleanRow :=
  { buy := cleanTextCell r.buy
    ageGroup := cleanTextCell r.ageGroup
    incomeRange := cleanTextCell r.incomeRange
    familiarityRaw := cleanTextCell r.familiarityRaw
    recommendationRaw := cleanTextCell r.recommendationRaw
    furniturePref := cleanTextCell r.furniturePref
    roomPref := cleanTextCell r.roomPref
    whyBuy := cleanTextCell r.whyBuy
    furnitureInd := furnitureChoices.map (multiChoiceIndicator r.furniturePref)
    roomInd := roomChoices.map (multiChoiceIndicator r.roomPref)
    whyInd := whyBuyChoices.map (multiChoiceIndicator r.whyBuy)
    age_numeric := fillNumZero (r.ageGroup.bind (fun s => ageMap.lookup s))
    income_numeric := fillNumZero (r.incomeRange.bind (fun s => incomeMap.lookup s))
    isho_familiarity_score := fillNumZero (r.familiarityRaw.bind pdToNumeric)
    recommendation_score := fillNumZero (r.recommendationRaw.bind pdToNumeric) }

/-- The table-level pipeline `FurnitureDataCleaner.run_data_cleaning`
(persistence side effects omitted): clean each row, then
`_filter_valid_responses` keeps the rows whose
`have_you_ever_bought_furniture` lowercases to "yes", re-indexed
consecutively (list order). -/
def runDataCleaning (rows : List RawRow) : List CleanRow :=
  (rows.map cleanRow).filter (fun r => pyLower r.buy == "yes".toList)

/-- The present (non-missing) cells of a column, what `value_counts` and
`dropna` range over. -/
def presentCells (col : List (Option Str)) : List Str := col.filterMap id

/-- Model of `Series.value_counts()`: one `(value, frequency)` entry per
distinct present value (NaN cells are ignored).  The claims only concern the
multiset of entries, so the count-descending display order is not tracked. -/
def valueCounts (col : List (Option Str)) : List (Str × ℕ) :=
  (presentCells col).dedup.map (fun v => (v, (presentCells col).count v))

/-- Round a rational to the nearest integer, ties to even — the behavior of
numpy/pandas `round`. -/
def roundHalfEven (x : ℚ) : ℤ :=
  let n := ⌊x⌋
  let r := x - (n : ℚ)
  if r < 1 / 2 then n
  else if 1 / 2 < r then n + 1
  else if n % 2 = 0 then n else n + 1

/-- Pandas `.round(1)`: round to one decimal place. -/
def round1 (x : ℚ) : ℚ := (roundHalfEven (x * 10) : ℚ) / 10

/-- A percentage series `(counts / n * 100).round(1)` where `n` is the
full-table row count `len(self.df)`. -/
def percSeries (counts : List (Str × ℕ)) (n : ℕ) : List (Str × ℚ) :=
  counts.map (fun p => (p.1, round1 ((p.2 : ℚ) / (n : ℚ) * 100)))

/-- Split a cell on commas, the `Series.str.get_dummies(sep=',')` tokenizer
(tokens are not trimmed). -/
def splitComma : Str → List Str
  | [] => [[]]
  | c :: rest =>
    match splitComma rest with
    | [] => [[c]]
    | h :: t => if c = ',' then [] :: h :: t else (c :: h) :: t

/-- Model of `Series.str.get_dummies(sep=',').sum()`: for each token
occurring in some present cell, the number of rows whose token list contains
it (a row counts once per label however often it repeats the token; NaN rows
contribute nothing). -/
def getDummiesSum (col : List (Option Str)) : List (Str × ℕ) :=
  let cells := col.filterMap id
  let labels := (cells.flatMap splitComma).dedup
  labels.map (fun t => (t, cells.countP (fun s => decide (t ∈ splitComma s))))

/-- A cleaned row as `BrandAnalyzer` reads it, restricted to the columns
`get_brand_perceptions` touches. -/
structure BrandRow where
  boughtIsho : Option Str
  association : Option Str
  factors : Option Str
  comparison : Option Str
  recommendation : Option Str
deriving DecidableEq

/-- One `counts`/`percentages` entry pair of a brand breakdown. -/
structure BrandBreakdown where
  counts : List (Str × ℕ)
  percentages : List (Str × ℚ)
deriving DecidableEq

/-- The results mapping of `BrandAnalyzer.get_brand_perceptions`. -/
structure BrandPerceptions where
  buyersAssociations : BrandBreakdown
  nonBuyersAssociations : BrandBreakdown
  factors : BrandBreakdown
  buyerComparison : BrandBreakdown
  nonBuyerComparison : BrandBreakdown
  recommendation : BrandBreakdown
deriving DecidableEq

/-- Model of `BrandAnalyzer.get_brand_perceptions`: subgroup breakdowns are
counted over the buyer (`== 'Yes'`) or non-buyer (`== 'No'`) rows, but every
`percentages` series divides by `len(self.df)`, the row count of the whole
table. -/
def getBrandPerceptions (rows : List BrandRow) : BrandPerceptions :=
  let n := rows.length
  let buyers := rows.filter (fun r => r.boughtIsho == some "Yes".toList)
  let nonBuyers := rows.filter (fun r => r.boughtIsho == some "No".toList)
  let ba := valueCounts (buyers.map (fun r => r.association))
  let na := valueCounts (nonBuyers.map (fun r => r.association))
  let fa := getDummiesSum (buyers.map (fun r => r.factors))
  let bc := valueCounts (buyers.map (fun r => r.comparison))
  let nc := valueCounts (nonBuyers.map (fun r => r.comparison))
  let re := valueCounts (rows.map (fun r => r.recommendation))
  { buyersAssociations := { counts := ba, percentages := percSeries ba n }
    nonBuyersAssociations := { counts := na, percentages := percSeries na n }
    factors := { counts := fa, percentages := percSeries fa n }
    buyerComparison := { counts := bc, percentages := percSeries bc n }
    nonBuyerComparison := { counts := nc, percentages := percSeries nc n }
    recommendation := { counts := re, percentages := percSeries re n } }

/-- The four derived numeric columns of `StatisticalAnalyzer`. -/
def numericCols : List String :=
  ["age_numeric", "income_numeric", "isho_familiarity_score",
   "recommendation_score"]

/-- The pairs printed by `print_statistical_summary` under "Significant
Correlations": iterate `i` over the matrix index and `j` over its columns and
report when `i < j` (string comparison) and `p_values.loc[i, j] < 0.05`.
The p-value matrix `pv` is the one produced by `analyze_correlations`
(scipy `pearsonr` on the 0-filled columns), kept abstract here. -/
def significantPairs (pv : String → String → ℚ) : List (String × String) :=
  numericCols.flatMap (fun i =>
    (numericCols.filter (fun j => decide (i < j) && decide (pv i j < 1 / 20))).map
      (fun j => (i, j)))

/-- The mean of a series (`Series.mean` over exact rationals). -/
def listMean (xs : List ℚ) : ℚ := xs.sum / (xs.length : ℚ)

/-- Model of `np.random.choice(data, size=size, replace=True)`: the global
RNG is modelled as a stream `draw` of naturals consumed from offset `off`;
each draw selects an index into `data`. -/
def npChoiceSample (data : List ℚ) (size : ℕ) (draw : ℕ → ℕ) (off : ℕ) : List ℚ :=
  (List.range size).map (fun i => data.getD (draw (off + i) % data.length) 0)

/-- The bootstrap loop of `perform_bootstrap_analysis`: `nIter` resamples of
the full data, recording each sample mean. -/
def bootstrapMeans (data : List ℚ) (nIter : ℕ) (draw : ℕ → ℕ) : List ℚ :=
  (List.range nIter).map (fun t =>
    listMean (npChoiceSample data data.length draw (t * data.length)))

/-- Model of `np.percentile(xs, q)` with the default linear-interpolation
method: index `q/100 * (len-1)` into the sorted data, interpolating between
the two neighbouring order statistics. -/
def npPercentile (xs : List ℚ) (q : ℚ) : ℚ :=
  let s := List.insertionSort (fun a b => a ≤ b) xs
  if s.length = 0 then 0
  else
    let pos : ℚ := q * ((s.length : ℚ) - 1) / 100
    let k : ℕ := (Int.floor pos).toNat
    let a := s.getD k 0
    let b := s.getD (k + 1) a
    a + (pos - (k : ℚ)) * (b - a)

/-- The `recommendation_bootstrap` entry of `perform_bootstrap_analysis`. -/
structure BootstrapResult where
  original_mean : ℚ
  bootstrap_means : List ℚ
  ci_lower : ℚ
  ci_upper : ℚ
deriving DecidableEq

/-- Model of `AdvancedAnalyzer.perform_bootstrap_analysis` on the
`recommendation_score` column: drop missing cells, resample `nIter` times
from the unseeded global RNG (the `draw` stream), and report the original
mean and the empirical 2.5/97.5 percentiles of the sample means.  The source
passes no seed to `np.random.choice`, so `draw` is an ambient state, not a
parameter of the Python call. -/
def performBootstrapAnalysis (col : List (Option ℚ)) (nIter : ℕ)
    (draw : ℕ → ℕ) : BootstrapResult :=
  let recScores := col.filterMap id
  let means := bootstrapMeans recScores nIter draw
  { original_mean := listMean recScores
    bootstrap_means := means
    ci_lower := npPercentile means (5 / 2)
    ci_upper := npPercentile means (195 / 2) }

/-- A raw row that survives filtering, with familiarity "3". -/
def rowThree : RawRow :=
  { buy := some "Yes".toList
    ageGroup := some "18-24".toList
    incomeRange := some "Below BDT 25,000".toList
    familiarityRaw := some "3".toList
    recommendationRaw := some "4".toList
    furniturePref := some "Modern,Traditional".toList
    roomPref := some "Bedroom".toList
    whyBuy := none }

/-- A raw row that survives filtering, with non-numeric familiarity "abc". -/
def rowAbc : RawRow :=
  { buy := some "Yes".toList
    ageGroup := none
    incomeRange := none
    familiarityRaw := some "abc".toList
    recommendationRaw := none
    furniturePref := none
    roomPref := none
    whyBuy := none }

/-- A raw row answering "No" to the purchase question. -/
def rowNo : RawRow :=
  { buy := some "No".toList
    ageGroup := none
    incomeRange := none
    familiarityRaw := none
    recommendationRaw := none
    furniturePref := none
    roomPref := none
    whyBuy := none }

/-- A six-row single-select column with six distinct values and no missing
cells: each value has frequency 1/6. -/
def colSix : List (Option Str) :=
  [some "a".toList, some "b".toList, some "c".toList,
   some "d".toList, some "e".toList, some "f".toList]

/-- A three-row brand table: two buyers sharing one association, one
non-buyer — so the buyer subgroup has 2 rows while the table has 3. -/
def demoBrandRows : List BrandRow :=
  [{ boughtIsho := some "Yes".toList, association := some "Premium".toList,
     factors := some "Price,Quality".toList,
     comparison := some "Better".toList, recommendation := some "5".toList },
   { boughtIsho := some "Yes".toList, association := some "Premium".toList,
     factors := some "Price".toList,
     comparison := some "Better".toList, recommendation := some "4".toList },
   { boughtIsho := some "No".toList, association := some "Costly".toList,
     factors := none,
     comparison := some "Worse".toList, recommendation := some "2".toList }]

/-- A global-RNG state that always draws index 0. -/
def drawZero : ℕ → ℕ := fun _ => 0

/-- A global-RNG state that always draws index 1. -/
def drawOne : ℕ → ℕ := fun _ => 1

/-! ### Helper lemmas about the string primitives -/

theorem mem_of_mem_pyStrip {c : Char} {s : Str} (h : c ∈ pyStrip s) : c ∈ s := by
  unfold pyStrip at h
  rw [List.mem_reverse] at h
  have h1 := (List.dropWhile_sublist pyIsSpace).subset h
  rw [List.mem_reverse] at h1
  exact (List.dropWhile_sublist pyIsSpace).subset h1

theorem mem_removeChar {a c : Char} {s : Str} (h : c ∈ removeChar a s) :
    c ∈ s ∧ c ≠ a := by
  unfold removeChar at h
  have h1 := List.mem_filter.mp h
  exact ⟨h1.1, by simpa using h1.2⟩

theorem mem_replaceChar {a b c : Char} {s : Str} (h : c ∈ replaceChar a b s) :
    (c ∈ s ∧ c ≠ a) ∨ c = b := by
  unfold replaceChar at h
  obtain ⟨d, hd, hcd⟩ := List.mem_map.mp h
  by_cases hda : d = a
  · right; rw [← hcd, if_pos hda]
  · left
    rw [← hcd, if_neg hda]
    exact ⟨hd, hda⟩

theorem mem_collapseDouble : ∀ (s : Str), ∀ c ∈ collapseDouble s, c ∈ s
  | [], c, hc => by simp [collapseDouble] at hc
  | [d], c, hc => by simp only [collapseDouble] at hc; exact hc
  | d :: e :: rest, c, hc => by
    simp only [collapseDouble] at hc
    by_cases hde : d = ' ' ∧ e = ' '
    · rw [if_pos hde] at hc
      rcases List.mem_cons.mp hc with rfl | hc'
      · simp [hde.1]
      · exact List.mem_cons_of_mem _ (List.mem_cons_of_mem _
          (mem_collapseDouble rest c hc'))
    · rw [if_neg hde] at hc
      rcases List.mem_cons.mp hc with rfl | hc'
      · simp
      · exact List.mem_cons_of_mem _ (mem_collapseDouble (e :: rest) c hc')

theorem collapseDouble_eq_self : ∀ (s : Str), (∀ c ∈ s, c ≠ ' ') →
    collapseDouble s = s
  | [], _ => rfl
  | [_], _ => rfl
  | c :: d :: rest, h => by
    have hc : c ≠ ' ' := h c (by simp)
    have hnot : ¬ (c = ' ' ∧ d = ' ') := fun hcd => hc hcd.1
    simp only [collapseDouble]
    rw [if_neg hnot]
    exact congrArg (c :: ·)
      (collapseDouble_eq_self (d :: rest) (fun x hx => h x (List.mem_cons_of_mem _ hx)))

theorem mem_of_lookup_eq_some {α β : Type} [BEq α] [LawfulBEq α]
    {l : List (α × β)} {k : α} {b : β} (h : l.lookup k = some b) : (k, b) ∈ l := by
  obtain ⟨l₁, l₂, rfl, -⟩ := List.lookup_eq_some_iff.mp h
  simp

theorem pyToLower_mem_or_eq (c : Char) :
    pyToLower c = c ∨ (c, pyToLower c) ∈ lowerPairs := by
  unfold pyToLower
  cases h : lowerPairs.lookup c with
  | none => left; rfl
  | some l =>
    right
    simpa [h] using mem_of_lookup_eq_some h

theorem pyToLower_idem (c : Char) : pyToLower (pyToLower c) = pyToLower c := by
  rcases pyToLower_mem_or_eq c with h | h
  · rw [h, h]
  · have hfix : ∀ p ∈ lowerPairs, pyToLower p.2 = p.2 := by decide
    exact hfix (c, pyToLower c) h

theorem pyIsSpace_pyToLower (c : Char) : pyIsSpace (pyToLower c) = pyIsSpace c := by
  rcases pyToLower_mem_or_eq c with h | h
  · rw [h]
  · have hsp : ∀ p ∈ lowerPairs, pyIsSpace p.1 = false ∧ pyIsSpace p.2 = false := by
      decide
    obtain ⟨h1, h2⟩ := hsp (c, pyToLower c) h
    rw [h1, h2]

theorem cleanColumnName_no_forbidden {s : Str} {c : Char}
    (h : c ∈ cleanColumnName s) : c ∉ forbiddenKeyChars := by
  unfold cleanColumnName at h
  rcases mem_replaceChar h with ⟨h1, _⟩ | rfl
  · have h2 := mem_collapseDouble _ _ h1
    obtain ⟨h3, hcomma⟩ := mem_removeChar h2
    obtain ⟨h4, hrp⟩ := mem_removeChar h3
    obtain ⟨h5, hlp⟩ := mem_removeChar h4
    obtain ⟨h6, hrb⟩ := mem_removeChar h5
    obtain ⟨h7, hlb⟩ := mem_removeChar h6
    rcases mem_replaceChar h7 with ⟨h8, hslash⟩ | rfl
    · obtain ⟨h9, hq⟩ := mem_removeChar h8
      simp only [forbiddenKeyChars, List.mem_cons, List.not_mem_nil, or_false]
      push_neg
      exact ⟨hq, hslash, hlb, hrb, hlp, hrp, hcomma⟩
    · decide
  · decide

theorem cleanColumnName_chars_of_space_only {s : Str}
    (hs : ∀ c ∈ s, pyIsSpace c = true → c = ' ') :
    ∀ c ∈ cleanColumnName s,
      pyIsSpace c = false ∧ pyToLower c = c ∧ c ∉ forbiddenKeyChars := by
  intro c hc
  refine ⟨?_, ?_, cleanColumnName_no_forbidden hc⟩
  · unfold cleanColumnName at hc
    rcases mem_replaceChar hc with ⟨h1, hsp⟩ | rfl
    · have h2 := mem_collapseDouble _ _ h1
      have h3 := (mem_removeChar h2).1
      have h4 := (mem_removeChar h3).1
      have h5 := (mem_removeChar h4).1
      have h6 := (mem_removeChar h5).1
      have h7 := (mem_removeChar h6).1
      rcases mem_replaceChar h7 with ⟨h8, _⟩ | rfl
      · have h9 := (mem_removeChar h8).1
        obtain ⟨d, hd, rfl⟩ := List.mem_map.mp h9
        rw [pyIsSpace_pyToLower d]
        by_contra hne
        have hdsp : pyIsSpace d = true := by
          cases h : pyIsSpace d
          · exact absurd h hne
          · rfl
        have hdspace := hs d (mem_of_mem_pyStrip hd) hdsp
        subst hdspace
        exact hsp (by decide)
      · decide
    · decide
  · unfold cleanColumnName at hc
    rcases mem_replaceChar hc with ⟨h1, _⟩ | rfl
    · have h2 := mem_collapseDouble _ _ h1
      have h3 := (mem_removeChar h2).1
      have h4 := (mem_removeChar h3).1
      have h5 := (mem_removeChar h4).1
      have h6 := (mem_removeChar h5).1
      have h7 := (mem_removeChar h6).1
      rcases mem_replaceChar h7 with ⟨h8, _⟩ | rfl
      · have h9 := (mem_removeChar h8).1
        obtain ⟨d, _, rfl⟩ := List.mem_map.mp h9
        exact pyToLower_idem d
      · decide
    · decide

theorem dropWhile_eq_self_of {p : Char → Bool} {l : Str}
    (h : ∀ c ∈ l, p c = false) : l.dropWhile p = l := by
  cases l with
  | nil => rfl
  | cons a t =>
    rw [List.dropWhile_cons, h a (List.mem_cons_self a t)]
    simp

theorem pyStrip_eq_self {l : Str} (h : ∀ c ∈ l, pyIsSpace c = false) :
    pyStrip l = l := by
  unfold pyStrip
  rw [dropWhile_eq_self_of h,
    dropWhile_eq_self_of (fun c hc => h c (List.mem_reverse.mp hc)),
    List.reverse_reverse]

theorem map_eq_self_of {f : Char → Char} {l : Str} (h : ∀ c ∈ l, f c = c) :
    l.map f = l := by
  induction l with
  | nil => rfl
  | cons a t ih =>
    rw [List.map_cons, h a (List.mem_cons_self a t),
      ih (fun c hc => h c (List.mem_cons_of_mem _ hc))]

theorem removeChar_eq_self {a : Char} {l : Str} (h : a ∉ l) :
    removeChar a l = l := by
  unfold removeChar
  exact List.filter_eq_self.mpr
    (fun c hc => bne_iff_ne.mpr (fun (e : c = a) => h (e ▸ hc)))

theorem replaceChar_eq_self {a b : Char} {l : Str} (h : a ∉ l) :
    replaceChar a b l = l :=
  map_eq_self_of (fun c hc => if_neg (fun (e : c = a) => h (e ▸ hc)))

/-- C4 counterexample: the claim says the slash is stripped (as the spec's
character list `?/[](),` reads), but `_clean_column_names` replaces `/` by
`_`: on the key "a/b" the code produces "a_b" while the claimed
normalization produces "ab". -/
theorem cleanColumnName_ne_spec_on_slash :
    cleanColumnName ("a/b".toList) ≠ specColumnName ("a/b".toList) ∧
    cleanColumnName ("a/b".toList) = "a_b".toList ∧
    specColumnName ("a/b".toList) = "ab".toList := by decide

/-- C4 (amended): `_clean_column_names` trims, lowercases, strips
`? [ ] ( ) ,`, replaces `/` (and, after collapsing double spaces, every
space) with `_`; consequently none of the characters `? / [ ] ( ) ,` occurs
in any normalized column key. -/
theorem cleanColumnName_forbidden_chars :
    (∀ (s : Str), ∀ c ∈ cleanColumnName s, c ∉ forbiddenKeyChars) ∧
    cleanColumnName ("a/b".toList) = "a_b".toList :=
  ⟨fun _ _ hc => cleanColumnName_no_forbidden hc, by decide⟩

/-- C4 witness: the normalized key of "What? (a/b), c" contains the letter
w, which is not a forbidden character. -/
theorem cleanColumnName_forbidden_chars_witness :
    'w' ∈ cleanColumnName ("What? (a/b), c".toList) ∧ 'w' ∉ forbiddenKeyChars :=
  ⟨by decide, cleanColumnName_forbidden_chars.1 ("What? (a/b), c".toList) 'w' (by decide)⟩

/-- C7 counterexample: normalization is not idempotent on every string.  On
"?\tA" the first pass strips nothing (the string starts with `?`), removes
the `?` and exposes a leading tab, which only the second pass's `strip()`
removes: the code maps "?\tA" to "\ta" and "\ta" to "a". -/
theorem cleanColumnName_not_idempotent :
    cleanColumnName (cleanColumnName ("?\tA".toList)) ≠
      cleanColumnName ("?\tA".toList) ∧
    cleanColumnName ("?\tA".toList) = ['\t', 'a'] ∧
    cleanColumnName (['\t', 'a']) = ['a'] := by decide

/-- C7 (amended): column-name normalization is idempotent on every string
whose whitespace characters are all plain spaces (in particular on every
already-normalized name produced from such a string); a non-space
whitespace character exposed at an end by character removal defeats it. -/
theorem cleanColumnName_idempotent :
    ∀ (s : Str), (∀ c ∈ s, pyIsSpace c = true → c = ' ') →
      cleanColumnName (cleanColumnName s) = cleanColumnName s := by
  intro s hs
  have key := cleanColumnName_chars_of_space_only hs
  have hnosp : ∀ c ∈ cleanColumnName s, pyIsSpace c = false :=
    fun c hc => (key c hc).1
  have hfix : ∀ c ∈ cleanColumnName s, pyToLower c = c :=
    fun c hc => (key c hc).2.1
  have hforb : ∀ c ∈ cleanColumnName s, c ∉ forbiddenKeyChars :=
    fun c hc => (key c hc).2.2
  have hnotmem : ∀ a : Char, a ∈ forbiddenKeyChars → a ∉ cleanColumnName s :=
    fun a ha hm => hforb a hm ha
  have hspace : ' ' ∉ cleanColumnName s :=
    fun hm => absurd (hnosp ' ' hm) (by decide)
  conv_lhs => rw [cleanColumnName]
  rw [pyStrip_eq_self hnosp]
  rw [show pyLower (cleanColumnName s) = cleanColumnName s from map_eq_self_of hfix]
  rw [removeChar_eq_self (hnotmem '?' (by decide))]
  rw [replaceChar_eq_self (hnotmem '/' (by decide))]
  rw [removeChar_eq_self (hnotmem '[' (by decide))]
  rw [removeChar_eq_self (hnotmem ']' (by decide))]
  rw [removeChar_eq_self (hnotmem '(' (by decide))]
  rw [removeChar_eq_self (hnotmem ')' (by decide))]
  rw [removeChar_eq_self (hnotmem ',' (by decide))]
  rw [collapseDouble_eq_self _ (fun c hc e => hspace (e ▸ hc))]
  rw [replaceChar_eq_self hspace]

/-- C7 witness: idempotence at the key "Your AGE group?". -/
theorem cleanColumnName_idempotent_witness :
    cleanColumnName (cleanColumnName ("Your AGE group?".toList)) =
      cleanColumnName ("Your AGE group?".toList) :=
  cleanColumnName_idempotent ("Your AGE group?".toList) (by decide)

/-! ### Multiple-choice indicators (C6) -/

theorem sum_map_ite_one {α : Type} (l : List α) (p : α → Bool) :
    (l.map (fun c => if p c then 1 else 0)).sum = (l.filter p).length := by
  induction l with
  | nil => rfl
  | cons a t ih =>
    rw [List.map_cons, List.sum_cons, ih, List.filter_cons]
    cases h : p a <;> simp [h, Nat.add_comm]

/-- C6: for each of the three configured multiple-choice questions, every
indicator is 0 or 1; an indicator is 1 exactly when the choice label occurs
case-insensitively as a substring of the (`fillna('')`-defaulted) response;
a missing response yields 0 for every label; and the sum of a row's
indicators equals the number of matched labels, hence is at least the number
of distinct recognized choices mentioned. -/
theorem multiChoiceIndicator_sound :
    ∀ (resp : Option Str),
      ∀ choices ∈ [furnitureChoices, roomChoices, whyBuyChoices],
      (∀ x ∈ choices.map (multiChoiceIndicator resp), x = 0 ∨ x = 1) ∧
      (∀ ch ∈ choices,
        (multiChoiceIndicator resp ch = 1 ↔ substrCI (resp.getD []) ch = true)) ∧
      (resp = none → ∀ x ∈ choices.map (multiChoiceIndicator resp), x = 0) ∧
      ((choices.map (multiChoiceIndicator resp)).sum =
        (choices.filter (fun ch => substrCI (resp.getD []) ch)).length) ∧
      ((choices.filter (fun ch => substrCI (resp.getD []) ch)).dedup.length ≤
        (choices.map (multiChoiceIndicator resp)).sum) := by
  intro resp choices hchoices
  have hsum : (choices.map (multiChoiceIndicator resp)).sum =
      (choices.filter (fun ch => substrCI (resp.getD []) ch)).length := by
    exact sum_map_ite_one choices (fun ch => substrCI (resp.getD []) ch)
  refine ⟨?_, ?_, ?_, hsum, ?_⟩
  · intro x hx
    obtain ⟨ch, _, rfl⟩ := List.mem_map.mp hx
    unfold multiChoiceIndicator
    split
    · right; rfl
    · left; rfl
  · intro ch _
    unfold multiChoiceIndicator
    by_cases h : substrCI (resp.getD []) ch = true
    · simp [h]
    · simp [h]
  · rintro rfl x hx
    simp only [List.mem_cons, List.not_mem_nil, or_false] at hchoices
    rcases hchoices with rfl | rfl | rfl
    · revert x hx; decide
    · revert x hx; decide
    · revert x hx; decide
  · rw [hsum]
    exact (List.dedup_sublist _).length_le

/-- C6 witness: a response mentioning Modern and Traditional over the
furniture-type labels. -/
theorem multiChoiceIndicator_sound_witness :
    (furnitureChoices.map
      (multiChoiceIndicator (some ("Modern,Traditional".toList)))).sum =
    (furnitureChoices.filter
      (fun ch => substrCI ((some ("Modern,Traditional".toList)).getD []) ch)).length :=
  (multiChoiceIndicator_sound (some ("Modern,Traditional".toList))
    furnitureChoices (List.mem_cons_self _ _)).2.2.2.1

/-! ### Row filtering (C5) -/

/-- C5: every row of the cleaned table answers "yes" (case-insensitively) to
`have_you_ever_bought_furniture`; any row whose raw answer is "No" in any
letter case is excluded by value; and the surviving rows form an
order-preserving sublist of the cleaned rows (re-indexed consecutively, as
list positions). -/
theorem runDataCleaning_filter_yes :
    ∀ (rows : List RawRow),
      (∀ r ∈ runDataCleaning rows, pyLower r.buy = "yes".toList) ∧
      (∀ (q : RawRow) (s : Str), q.buy = some s →
        s ∈ ["No".toList, "no".toList, "nO".toList, "NO".toList] →
        cleanRow q ∉ runDataCleaning rows) ∧
      (runDataCleaning rows).Sublist (rows.map cleanRow) := by
  intro rows
  have hyes : ∀ r ∈ runDataCleaning rows, pyLower r.buy = "yes".toList := by
    intro r hr
    have h1 := List.of_mem_filter hr
    exact eq_of_beq h1
  refine ⟨hyes, ?_, List.filter_sublist _⟩
  intro q s hqs hsmem hmem
  have h1 := hyes (cleanRow q) hmem
  have h2 : (cleanRow q).buy = cleanTextCell (some s) := by
    rw [← hqs]; rfl
  rw [h2] at h1
  simp only [List.mem_cons, List.not_mem_nil, or_false] at hsmem
  rcases hsmem with rfl | rfl | rfl | rfl
  · exact absurd h1 (by decide)
  · exact absurd h1 (by decide)
  · exact absurd h1 (by decide)
  · exact absurd h1 (by decide)

/-- C5 witness: the "No" row of a two-row table is excluded from the cleaned
table. -/
theorem runDataCleaning_filter_yes_witness :
    cleanRow rowNo ∉ runDataCleaning [rowThree, rowNo] :=
  (runDataCleaning_filter_yes [rowThree, rowNo]).2.1 rowNo ("No".toList) rfl
    (by decide)

/-! ### Numeric feature creation and zero-fill (C3) -/

/-- C3 counterexample: on a table whose only row answers "Yes" and has raw
familiarity "abc", the cleaned table's `isho_familiarity_score` is `some 0`
(the missing-value step fills the coerced NaN with 0), not missing, and 0 is
not in 1..5 — contradicting the claim that a non-numeric raw value stays
missing and that cleaned scores lie in 1..5 or are missing. -/
theorem familiarity_abc_is_zero_filled :
    ((runDataCleaning [rowAbc]).map (fun r => r.isho_familiarity_score) =
      [some 0]) ∧
    ¬ (∀ x ∈ (runDataCleaning [rowAbc]).map (fun r => r.isho_familiarity_score),
        x = none ∨ ∃ v, x = some v ∧ v ∈ ([1, 2, 3, 4, 5] : List ℚ)) := by
  constructor
  · decide
  · intro h
    have := h (some 0) (by decide)
    rcases this with h' | ⟨v, hv, hvmem⟩
    · exact absurd h' (by decide)
    · rw [show v = 0 from by injection hv.symm] at hvmem
      exact absurd hvmem (by decide)

/-- C3 (amended): in the table returned by `run_data_cleaning` every
familiarity/recommendation score is present and equals the
`pd.to_numeric(..., errors='coerce')` value of the raw cell when that value
exists and 0 otherwise (the `_handle_missing_values` zero-fill); in
particular raw "3" yields 3.0 and raw "abc" yields 0.0 — cleaning never
fails, but no 1..5 range is enforced. -/
theorem familiarity_score_zero_fill :
    (∀ (rows : List RawRow), ∀ r ∈ runDataCleaning rows,
      ∃ q ∈ rows, r = cleanRow q ∧
        r.isho_familiarity_score =
          some ((q.familiarityRaw.bind pdToNumeric).getD 0) ∧
        r.recommendation_score =
          some ((q.recommendationRaw.bind pdToNumeric).getD 0)) ∧
    pdToNumeric ("3".toList) = some 3 ∧
    pdToNumeric ("abc".toList) = none ∧
    (cleanRow rowThree).isho_familiarity_score = some 3 ∧
    (cleanRow rowAbc).isho_familiarity_score = some 0 := by
  refine ⟨?_, ?_, by decide, ?_, by decide⟩
  · intro rows r hr
    have h1 := List.mem_of_mem_filter hr
    obtain ⟨q, hq, heq⟩ := List.mem_map.mp h1
    exact ⟨q, hq, heq.symm, by rw [← heq]; rfl, by rw [← heq]; rfl⟩
  · have h : pdToNumeric ("3".toList) = some ((1 : ℚ) * ((3 : ℕ) : ℚ)) := rfl
    rw [h]; norm_num
  · have h : (cleanRow rowThree).isho_familiarity_score =
        some ((1 : ℚ) * ((3 : ℕ) : ℚ)) := rfl
    rw [h]; norm_num

/-- C3 witness: the amended statement applied to the one-row "abc" table. -/
theorem familiarity_score_zero_fill_witness :
    ∃ q ∈ [rowAbc], cleanRow rowAbc = cleanRow q ∧
      (cleanRow rowAbc).isho_familiarity_score =
        some ((q.familiarityRaw.bind pdToNumeric).getD 0) ∧
      (cleanRow rowAbc).recommendation_score =
        some ((q.recommendationRaw.bind pdToNumeric).getD 0) :=
  familiarity_score_zero_fill.1 [rowAbc] (cleanRow rowAbc) (by decide)

/-! ### Percentage breakdowns (C1, C10) -/

theorem sum_map_add_split {α : Type} (l : List α) (f g : α → ℕ) :
    (l.map (fun v => f v + g v)).sum = (l.map f).sum + (l.map g).sum := by
  induction l with
  | nil => rfl
  | cons a t ih =>
    simp only [List.map_cons, List.sum_cons, ih]
    omega

theorem sum_map_ite_eq_count (l : List Str) (a : Str) :
    (l.map (fun v => if a == v then 1 else 0)).sum = l.count a := by
  induction l with
  | nil => rfl
  | cons x t ih =>
    rw [List.map_cons, List.sum_cons, ih, List.count_cons]
    by_cases h : a = x
    · subst h
      simp [Nat.add_comm]
    · have h1 : (a == x) = false := beq_eq_false_iff_ne.mpr h
      have h2 : (x == a) = false := beq_eq_false_iff_ne.mpr (fun e => h e.symm)
      simp [h1, h2]

theorem count_nodup_of_mem {α : Type} [BEq α] [LawfulBEq α] :
    ∀ (d : List α), d.Nodup → ∀ {a : α}, a ∈ d → d.count a = 1 := by
  intro d hn
  induction d with
  | nil => intro a hm; cases hm
  | cons x t ih =>
    intro a hm
    obtain ⟨hxt, hnt⟩ := List.nodup_cons.mp hn
    rw [List.count_cons]
    rcases List.mem_cons.mp hm with rfl | hmt
    · rw [List.count_eq_zero_of_not_mem hxt]
      simp
    · have hxa : (x == a) = false :=
        beq_eq_false_iff_ne.mpr (fun e => hxt (e ▸ hmt))
      rw [ih hnt hmt, hxa]
      simp

theorem sum_counts_dedup (l : List Str) :
    (l.dedup.map (fun v => l.count v)).sum = l.length := by
  induction l with
  | nil => rfl
  | cons a t ih =>
    by_cases hmem : a ∈ t
    · rw [List.dedup_cons_of_mem hmem, List.length_cons]
      have hsplit : (t.dedup.map (fun v => (a :: t).count v)).sum =
          (t.dedup.map (fun v => t.count v)).sum +
          (t.dedup.map (fun v => if a == v then 1 else 0)).sum := by
        rw [← sum_map_add_split]
        apply congrArg
        apply List.map_congr_left
        intro v _
        rw [List.count_cons]
      have hone : (t.dedup.map (fun v => if a == v then 1 else 0)).sum = 1 := by
        rw [sum_map_ite_eq_count]
        exact count_nodup_of_mem t.dedup (List.nodup_dedup t)
          (List.mem_dedup.mpr hmem)
      rw [hsplit, ih, hone]
    · rw [List.dedup_cons_of_not_mem hmem, List.map_cons, List.sum_cons,
        List.length_cons]
      have h1 : (a :: t).count a = 1 := by
        rw [List.count_cons]
        simp [List.count_eq_zero_of_not_mem hmem]
      have h2 : (t.dedup.map (fun v => (a :: t).count v)).sum =
          (t.dedup.map (fun v => t.count v)).sum := by
        apply congrArg
        apply List.map_congr_left
        intro v hv
        have hva : (a == v) = false := beq_eq_false_iff_ne.mpr
          (fun e => hmem (e ▸ List.mem_dedup.mp hv))
        rw [List.count_cons, hva]
        simp
      rw [h1, h2, ih]
      omega

theorem sum_map_div100 (l : List (Str × ℕ)) (n : ℚ) :
    (l.map (fun p => (p.2 : ℚ) / n * 100)).sum =
      ((l.map (fun p => ((p.2 : ℕ) : ℚ))).sum) / n * 100 := by
  induction l with
  | nil => simp
  | cons a t ih => simp [ih, add_div, add_mul]

theorem counts_cast_sum (col : List (Option Str)) :
    ((valueCounts col).map (fun p => ((p.2 : ℕ) : ℚ))).sum =
      ((presentCells col).length : ℚ) := by
  have h := sum_counts_dedup (presentCells col)
  unfold valueCounts
  rw [List.map_map]
  rw [show ((fun p : Str × ℕ => ((p.2 : ℕ) : ℚ)) ∘
      (fun v => (v, (presentCells col).count v))) =
      (fun v => (((presentCells col).count v : ℕ) : ℚ)) from rfl]
  rw [← h, Nat.cast_list_sum, List.map_map]
  rfl

theorem filterMap_id_length {col : List (Option Str)}
    (h : ∀ x ∈ col, x ≠ none) : (col.filterMap id).length = col.length := by
  induction col with
  | nil => rfl
  | cons a t ih =>
    cases a with
    | none => exact absurd rfl (h none (List.mem_cons_self _ _))
    | some v =>
      simp only [List.filterMap_cons, id, List.length_cons]
      rw [ih (fun x hx => h x (List.mem_cons_of_mem _ hx))]

theorem roundHalfEven_up {x : ℚ} {n : ℤ} (hfloor : ⌊x⌋ = n)
    (hhalf : 1 / 2 < x - (n : ℚ)) : roundHalfEven x = n + 1 := by
  unfold roundHalfEven
  rw [hfloor, if_neg (by linarith), if_pos hhalf]

theorem roundHalfEven_down {x : ℚ} {n : ℤ} (hfloor : ⌊x⌋ = n)
    (hhalf : x - (n : ℚ) < 1 / 2) : roundHalfEven x = n := by
  unfold roundHalfEven
  rw [hfloor, if_pos hhalf]

theorem round1_sixth : round1 ((1 : ℚ) / 6 * 100) = 167 / 10 := by
  unfold round1
  rw [roundHalfEven_up (n := 166) (by norm_num) (by norm_num)]
  norm_num

theorem round1_twothirds : round1 ((2 : ℚ) / 3 * 100) = 667 / 10 := by
  unfold round1
  rw [roundHalfEven_up (n := 666) (by norm_num) (by norm_num)]
  norm_num

theorem round1_hundred : round1 ((2 : ℚ) / 2 * 100) = 100 := by
  unfold round1
  rw [roundHalfEven_down (n := 1000) (by norm_num) (by norm_num)]
  norm_num

/-- C1 counterexample: on a six-row single-select column with six distinct
values and no missing cells, the rounded percentages are six copies of 16.7,
summing to 100.2 — strictly above 100, refuting both "sum to at most 100"
and "exactly 100 for a single-select field with no missing values" under the
1-decimal rounding policy. -/
theorem rounded_percentages_exceed_100 :
    (((valueCounts colSix).map
        (fun p => round1 ((p.2 : ℚ) / (colSix.length : ℚ) * 100))).sum = 501 / 5) ∧
    ¬ (((valueCounts colSix).map
        (fun p => round1 ((p.2 : ℚ) / (colSix.length : ℚ) * 100))).sum ≤ 100) ∧
    (∀ x ∈ colSix, x ≠ none) := by
  have hvc : valueCounts colSix =
      [("a".toList, 1), ("b".toList, 1), ("c".toList, 1),
       ("d".toList, 1), ("e".toList, 1), ("f".toList, 1)] := by decide
  have hlen : colSix.length = 6 := by decide
  have hsum : ((valueCounts colSix).map
      (fun p => round1 ((p.2 : ℚ) / (colSix.length : ℚ) * 100))).sum = 501 / 5 := by
    rw [hvc, hlen]
    simp only [List.map_cons, List.map_nil, List.sum_cons, List.sum_nil]
    push_cast
    rw [round1_sixth]
    norm_num
  exact ⟨hsum, by rw [hsum]; norm_num, by decide⟩

/-- C1 (amended): before rounding, the percentage values of a `value_counts`
frequency breakdown of a nonempty column sum to at most 100, and to exactly
100 when the column has no missing values; the 1-decimal rounding can push
the rounded sum above 100 (to 100.2 on six equal categories), and
multi-select breakdowns such as `analyze_furniture_types` count one row
under several labels against the same full-table denominator, so neither
bound survives rounding or multi-select counting. -/
theorem value_counts_percentages_sum :
    ∀ (col : List (Option Str)), 1 ≤ col.length →
      (((valueCounts col).map
          (fun p => (p.2 : ℚ) / (col.length : ℚ) * 100)).sum ≤ 100) ∧
      ((∀ x ∈ col, x ≠ none) →
        ((valueCounts col).map
          (fun p => (p.2 : ℚ) / (col.length : ℚ) * 100)).sum = 100) := by
  intro col hlen
  have hn : (0 : ℚ) < (col.length : ℚ) := by exact_mod_cast hlen
  rw [sum_map_div100, counts_cast_sum]
  constructor
  · have hle : (presentCells col).length ≤ col.length :=
      List.length_filterMap_le id col
    have hle' : ((presentCells col).length : ℚ) ≤ (col.length : ℚ) := by
      exact_mod_cast hle
    rw [div_mul_eq_mul_div, div_le_iff₀ hn]
    nlinarith
  · intro hall
    have heq : (presentCells col).length = col.length :=
      filterMap_id_length hall
    rw [heq, div_self (ne_of_gt hn), one_mul]

/-- C1 witness: a one-row column with no missing values sums to exactly 100
before rounding. -/
theorem value_counts_percentages_sum_witness :
    ((valueCounts [some ("a".toList)]).map
      (fun p => (p.2 : ℚ) / ((List.length [some ("a".toList)] : ℕ) : ℚ) * 100)).sum
      = 100 :=
  (value_counts_percentages_sum [some ("a".toList)] (by decide)).2 (by decide)

/-- C10: in `get_brand_perceptions` every `percentages` entry — including
the buyer-only and non-buyer-only breakdowns — is its count divided by the
row count of the whole table times 100, rounded to 1 decimal; concretely, on
a 3-row table with 2 buyers the buyers-association percentage is
`round1(2/3*100) = 66.7`, not the subgroup-denominator value
`round1(2/2*100) = 100`. -/
theorem brand_percentages_full_table_denominator :
    (∀ (rows : List BrandRow),
      (∀ (k : Str) (c : ℕ),
        (k, c) ∈ (getBrandPerceptions rows).buyersAssociations.counts →
        (k, round1 ((c : ℚ) / (rows.length : ℚ) * 100)) ∈
          (getBrandPerceptions rows).buyersAssociations.percentages) ∧
      (∀ (k : Str) (c : ℕ),
        (k, c) ∈ (getBrandPerceptions rows).nonBuyersAssociations.counts →
        (k, round1 ((c : ℚ) / (rows.length : ℚ) * 100)) ∈
          (getBrandPerceptions rows).nonBuyersAssociations.percentages) ∧
      (∀ (k : Str) (c : ℕ),
        (k, c) ∈ (getBrandPerceptions rows).factors.counts →
        (k, round1 ((c : ℚ) / (rows.length : ℚ) * 100)) ∈
          (getBrandPerceptions rows).factors.percentages) ∧
      (∀ (k : Str) (c : ℕ),
        (k, c) ∈ (getBrandPerceptions rows).buyerComparison.counts →
        (k, round1 ((c : ℚ) / (rows.length : ℚ) * 100)) ∈
          (getBrandPerceptions rows).buyerComparison.percentages) ∧
      (∀ (k : Str) (c : ℕ),
        (k, c) ∈ (getBrandPerceptions rows).nonBuyerComparison.counts →
        (k, round1 ((c : ℚ) / (rows.length : ℚ) * 100)) ∈
          (getBrandPerceptions rows).nonBuyerComparison.percentages)) ∧
    ((getBrandPerceptions demoBrandRows).buyersAssociations.percentages =
      [("Premium".toList, 667 / 10)]) ∧
    round1 ((2 : ℚ) / (2 : ℚ) * 100) = 100 ∧ ((667 : ℚ) / 10 ≠ 100) := by
  refine ⟨?_, ?_, round1_hundred, by norm_num⟩
  · intro rows
    refine ⟨?_, ?_, ?_, ?_, ?_⟩ <;>
      · intro k c h
        exact List.mem_map_of_mem _ h
  · have hc : (getBrandPerceptions demoBrandRows).buyersAssociations.counts =
        [("Premium".toList, 2)] := by decide
    have h0 : (getBrandPerceptions demoBrandRows).buyersAssociations.percentages =
        percSeries ((getBrandPerceptions demoBrandRows).buyersAssociations.counts)
          demoBrandRows.length := rfl
    rw [h0, hc, show demoBrandRows.length = 3 from rfl]
    simp only [percSeries, List.map_cons, List.map_nil]
    push_cast
    rw [round1_twothirds]

/-- C10 witness: the buyers-association entry of the 3-row demo table. -/
theorem brand_percentages_full_table_denominator_witness :
    ("Premium".toList,
      round1 ((2 : ℚ) / ((demoBrandRows.length : ℕ) : ℚ) * 100)) ∈
      (getBrandPerceptions demoBrandRows).buyersAssociations.percentages :=
  (brand_percentages_full_table_denominator.1 demoBrandRows).1
    ("Premium".toList) 2 (by decide)

/-! ### Triangular significance reporting (C8) -/

theorem count_map_pair (i a b : String) (l : List String) :
    ((l.map (fun j => (i, j))).count (a, b)) =
      if i = a then l.count b else 0 := by
  induction l with
  | nil => simp
  | cons x t ih =>
    rw [List.map_cons, List.count_cons, ih]
    by_cases hia : i = a
    · subst hia
      rw [if_pos rfl, if_pos rfl, List.count_cons]
      by_cases hxb : x = b
      · subst hxb; simp
      · have h1 : ((i, x) == (i, b)) = false :=
          beq_eq_false_iff_ne.mpr (fun e => hxb (congrArg Prod.snd e))
        have h2 : (x == b) = false := beq_eq_false_iff_ne.mpr hxb
        simp [h1, h2]
    · have h1 : ((i, x) == (a, b)) = false :=
        beq_eq_false_iff_ne.mpr (fun e => hia (congrArg Prod.fst e))
      simp [h1, hia]

theorem count_flatMap_eq_sum {α β : Type} [BEq β] (l : List α) (f : α → List β)
    (x : β) : ((l.flatMap f).count x) = (l.map (fun i => (f i).count x)).sum := by
  induction l with
  | nil => rfl
  | cons a t ih =>
    rw [List.flatMap_cons, List.count_append, ih, List.map_cons, List.sum_cons]

theorem sum_map_ite_self (l : List String) (a : String) (k : ℕ) :
    (l.map (fun i => if i = a then k else 0)).sum = l.count a * k := by
  induction l with
  | nil => simp
  | cons x t ih =>
    rw [List.map_cons, List.sum_cons, ih, List.count_cons]
    by_cases h : x = a
    · subst h
      rw [if_pos rfl, beq_self_eq_true, if_pos rfl, Nat.add_mul, one_mul]
      omega
    · have hb : (x == a) = false := beq_eq_false_iff_ne.mpr h
      simp [h, hb]

theorem count_significantPairs (pv : String → String → ℚ) (x y : String)
    (hx : x ∈ numericCols) (hy : y ∈ numericCols) :
    (significantPairs pv).count (x, y) =
      if x < y ∧ pv x y < 1 / 20 then 1 else 0 := by
  unfold significantPairs
  rw [count_flatMap_eq_sum]
  have hmap : (numericCols.map (fun i =>
      ((numericCols.filter
        (fun j => decide (i < j) && decide (pv i j < 1 / 20))).map
          (fun j => (i, j))).count (x, y))) =
      (numericCols.map (fun i => if i = x then
        (numericCols.filter
          (fun j => decide (x < j) && decide (pv x j < 1 / 20))).count y
        else 0)) := by
    apply List.map_congr_left
    intro i _
    rw [count_map_pair]
    by_cases hix : i = x
    · subst hix; rfl
    · rw [if_neg hix, if_neg hix]
  rw [hmap, sum_map_ite_self, count_nodup_of_mem numericCols (by decide) hx,
    one_mul]
  by_cases hcond : x < y ∧ pv x y < 1 / 20
  · rw [if_pos hcond]
    have hp : (decide (x < y) && decide (pv x y < 1 / 20)) = true := by
      rw [decide_eq_true hcond.1, decide_eq_true hcond.2]
      rfl
    exact (List.count_filter
        (p := fun j => decide (x < j) && decide (pv x j < 1 / 20))
        (a := y) (l := numericCols) hp).trans
      (count_nodup_of_mem numericCols (by decide) hy)
  · rw [if_neg hcond]
    apply List.count_eq_zero_of_not_mem
    intro hmem
    have hflt := (List.mem_filter.mp hmem).2
    simp only [Bool.and_eq_true, decide_eq_true_eq] at hflt
    exact hcond hflt

/-- C8: in the statistical summary, each unordered pair of distinct numeric
columns is reported at most once — once in its `i < j` (string-order)
orientation — and it is reported exactly when its (symmetric) p-value is
strictly below 0.05. -/
theorem significant_pairs_each_pair_once :
    ∀ (pv : String → String → ℚ) (a b : String),
      a ∈ numericCols → b ∈ numericCols → a ≠ b → pv a b = pv b a →
      (significantPairs pv).count (a, b) + (significantPairs pv).count (b, a) =
        if pv a b < 1 / 20 then 1 else 0 := by
  intro pv a b ha hb hab hsym
  rw [count_significantPairs pv a b ha hb, count_significantPairs pv b a hb ha,
    hsym]
  rcases lt_trichotomy a b with h | h | h
  · have h2 : ¬ b < a := lt_asymm h
    by_cases hq : pv b a < 1 / 20
    · simp [h, h2, hq]
    · simp [h, h2, hq]
  · exact absurd h hab
  · have h2 : ¬ a < b := lt_asymm h
    by_cases hq : pv b a < 1 / 20
    · simp [h, h2, hq]
    · simp [h, h2, hq]

/-- C8 witness: with an all-zero p-value matrix, the age/income pair is
reported exactly once. -/
theorem significant_pairs_each_pair_once_witness :
    (significantPairs (fun _ _ => (0 : ℚ))).count ("age_numeric", "income_numeric") +
      (significantPairs (fun _ _ => (0 : ℚ))).count ("income_numeric", "age_numeric") =
      if (0 : ℚ) < 1 / 20 then 1 else 0 :=
  significant_pairs_each_pair_once (fun _ _ => (0 : ℚ)) "age_numeric"
    "income_numeric" (by decide) (by decide) (by decide) rfl

/-! ### Bootstrap analysis (C9, C2) -/

theorem getD_replicate_of_lt {j m : ℕ} {v d : ℚ} (h : j < m) :
    (List.replicate m v).getD j d = v := by
  rw [List.getD_eq_getElem?_getD, List.getElem?_replicate, if_pos h]
  rfl

theorem getD_replicate_of_ge {j m : ℕ} {v d : ℚ} (h : ¬ j < m) :
    (List.replicate m v).getD j d = d := by
  rw [List.getD_eq_getElem?_getD, List.getElem?_replicate, if_neg h]
  rfl

theorem insertionSort_replicate (m : ℕ) (v : ℚ) :
    List.insertionSort (fun a b => a ≤ b) (List.replicate m v) =
      List.replicate m v := by
  have hperm := List.perm_insertionSort (fun a b => a ≤ b) (List.replicate m v)
  have hmem : ∀ b ∈ List.insertionSort (fun a b => a ≤ b) (List.replicate m v),
      b = v := fun b hb => List.eq_of_mem_replicate (hperm.subset hb)
  have hlen : (List.insertionSort (fun a b => a ≤ b)
      (List.replicate m v)).length = m :=
    hperm.length_eq.trans (List.length_replicate m v)
  conv_rhs => rw [← hlen]
  exact List.eq_replicate_of_mem hmem

theorem npPercentile_replicate {m : ℕ} {v q : ℚ} (hm : 1 ≤ m) (hq0 : 0 ≤ q)
    (hq100 : q ≤ 100) : npPercentile (List.replicate m v) q = v := by
  unfold npPercentile
  rw [insertionSort_replicate]
  rw [if_neg (by simp [List.length_replicate]; omega)]
  simp only [List.length_replicate]
  have hm1 : (0 : ℚ) ≤ (m : ℚ) - 1 := by
    have : (1 : ℚ) ≤ (m : ℚ) := by exact_mod_cast hm
    linarith
  have hposle : q * ((m : ℚ) - 1) / 100 ≤ (m : ℚ) - 1 := by
    rw [div_le_iff₀ (by norm_num : (0 : ℚ) < 100)]
    nlinarith
  have hpos0 : 0 ≤ q * ((m : ℚ) - 1) / 100 := by positivity
  have hfloorle : (⌊q * ((m : ℚ) - 1) / 100⌋ : ℚ) ≤ (m : ℚ) - 1 :=
    le_trans (Int.floor_le _) hposle
  have hfloorle' : ⌊q * ((m : ℚ) - 1) / 100⌋ ≤ (m : ℤ) - 1 := by
    exact_mod_cast hfloorle
  have hk : (⌊q * ((m : ℚ) - 1) / 100⌋).toNat < m := by omega
  rw [getD_replicate_of_lt hk]
  by_cases hk1 : (⌊q * ((m : ℚ) - 1) / 100⌋).toNat + 1 < m
  · rw [getD_replicate_of_lt hk1]
    ring
  · rw [getD_replicate_of_ge hk1]
    ring

set_option maxRecDepth 4000 in
/-- C9: bootstrapping a recommendation-score column of n identical values v
with 1000 iterations reports original mean v and 2.5th/97.5th percentile
bounds both exactly v, whatever the RNG draws. -/
theorem bootstrap_constant_ci :
    ∀ (n : ℕ) (v : ℚ) (draw : ℕ → ℕ), 1 ≤ n →
      (performBootstrapAnalysis (List.replicate n (some v)) 1000
        draw).original_mean = v ∧
      (performBootstrapAnalysis (List.replicate n (some v)) 1000
        draw).ci_lower = v ∧
      (performBootstrapAnalysis (List.replicate n (some v)) 1000
        draw).ci_upper = v := by
  intro n v draw hn
  have hdata : (List.replicate n (some v)).filterMap id = List.replicate n v :=
    List.filterMap_replicate_of_some rfl
  have hmean : listMean (List.replicate n v) = v := by
    unfold listMean
    rw [List.sum_replicate, List.length_replicate, nsmul_eq_mul,
      mul_div_cancel_left₀]
    exact Nat.cast_ne_zero.mpr (by omega)
  have hsample : ∀ off, npChoiceSample (List.replicate n v)
      ((List.replicate n v).length) draw off = List.replicate n v := by
    intro off
    unfold npChoiceSample
    simp only [List.length_replicate]
    rw [List.map_congr_left (g := fun _ => v) (fun i _ =>
      getD_replicate_of_lt (Nat.mod_lt _ (by omega)))]
    rw [List.map_const', List.length_range]
  have hmeans : bootstrapMeans (List.replicate n v) 1000 draw =
      List.replicate 1000 v := by
    unfold bootstrapMeans
    rw [List.map_congr_left (g := fun _ => v) (fun t _ => by
      rw [show npChoiceSample (List.replicate n v) (List.replicate n v).length
          draw (t * (List.replicate n v).length) = List.replicate n v from
        hsample _, hmean])]
    rw [List.map_const', List.length_range]
  have hdef : performBootstrapAnalysis (List.replicate n (some v)) 1000 draw =
      { original_mean := listMean ((List.replicate n (some v)).filterMap id)
        bootstrap_means := bootstrapMeans
          ((List.replicate n (some v)).filterMap id) 1000 draw
        ci_lower := npPercentile (bootstrapMeans
          ((List.replicate n (some v)).filterMap id) 1000 draw) (5 / 2)
        ci_upper := npPercentile (bootstrapMeans
          ((List.replicate n (some v)).filterMap id) 1000 draw) (195 / 2) } := rfl
  have hres : performBootstrapAnalysis (List.replicate n (some v)) 1000 draw =
      { original_mean := v
        bootstrap_means := List.replicate 1000 v
        ci_lower := v
        ci_upper := v } := by
    rw [hdef, hdata, hmeans, hmean]
    rw [npPercentile_replicate (m := 1000) (v := v) (q := 5 / 2) (by omega)
      (by norm_num) (by norm_num)]
    rw [npPercentile_replicate (m := 1000) (v := v) (q := 195 / 2) (by omega)
      (by norm_num) (by norm_num)]
  exact ⟨by rw [hres], by rw [hres], by rw [hres]⟩

/-- C9 witness: a column of two cells both 3. -/
theorem bootstrap_constant_ci_witness :
    (performBootstrapAnalysis (List.replicate 2 (some (3 : ℚ))) 1000
      drawZero).original_mean = 3 ∧
    (performBootstrapAnalysis (List.replicate 2 (some (3 : ℚ))) 1000
      drawZero).ci_lower = 3 ∧
    (performBootstrapAnalysis (List.replicate 2 (some (3 : ℚ))) 1000
      drawZero).ci_upper = 3 :=
  bootstrap_constant_ci 2 3 drawZero (by omega)

set_option maxRecDepth 8000 in
/-- C2 counterexample: `perform_bootstrap_analysis` passes no seed to
`np.random.choice`, so its output depends on the ambient global RNG state:
two invocations on the same two-value column with the default 1000
iterations, at global RNG states that draw index 0 versus index 1, return
different `bootstrap_means` (first sample mean 1 versus 2) — the claimed
run-to-run determinism fails for the bootstrap step. -/
theorem bootstrap_rng_counterexample :
    performBootstrapAnalysis [some 1, some 2] 1000 drawZero ≠
      performBootstrapAnalysis [some 1, some 2] 1000 drawOne := by
  have e1 : (performBootstrapAnalysis [some (1 : ℚ), some 2] 1000
      drawZero).bootstrap_means = bootstrapMeans [1, 2] 1000 drawZero := rfl
  have e2 : (performBootstrapAnalysis [some (1 : ℚ), some 2] 1000
      drawOne).bootstrap_means = bootstrapMeans [1, 2] 1000 drawOne := rfl
  have g1 : (bootstrapMeans [(1 : ℚ), 2] 1000 drawZero).getD 0 0 =
      listMean [1, 1] := rfl
  have g2 : (bootstrapMeans [(1 : ℚ), 2] 1000 drawOne).getD 0 0 =
      listMean [2, 2] := rfl
  intro h
  have h0 := congrArg (fun r => r.bootstrap_means.getD 0 0) h
  simp only [e1, e2] at h0
  rw [g1, g2] at h0
  unfold listMean at h0
  simp only [List.sum_cons, List.sum_nil, List.length_cons,
    List.length_nil] at h0
  norm_num at h0

/-- C2 (amended): the pipeline's k-means steps use the fixed seed 42, but
the bootstrap is randomized through the unseeded global RNG; it is
deterministic only relative to that state — its result is a function of the
input column and the `n_iterations × sample-size` RNG draws it consumes, so
two calls agreeing on those draws agree on all outputs, while calls at
different global RNG states may differ. -/
theorem bootstrap_deterministic_in_draws :
    ∀ (col : List (Option ℚ)) (nIter : ℕ) (d1 d2 : ℕ → ℕ),
      (∀ i, i < nIter * (col.filterMap id).length → d1 i = d2 i) →
      performBootstrapAnalysis col nIter d1 =
        performBootstrapAnalysis col nIter d2 := by
  intro col nIter d1 d2 hagree
  have hmeans : bootstrapMeans (col.filterMap id) nIter d1 =
      bootstrapMeans (col.filterMap id) nIter d2 := by
    unfold bootstrapMeans
    apply List.map_congr_left
    intro t ht
    have ht' := List.mem_range.mp ht
    have hsam : npChoiceSample (col.filterMap id) (col.filterMap id).length d1
        (t * (col.filterMap id).length) =
        npChoiceSample (col.filterMap id) (col.filterMap id).length d2
        (t * (col.filterMap id).length) := by
      unfold npChoiceSample
      apply List.map_congr_left
      intro i hi
      have hi' := List.mem_range.mp hi
      have hlt : t * (col.filterMap id).length + i <
          nIter * (col.filterMap id).length := by
        have h1 : t * (col.filterMap id).length + i <
            t * (col.filterMap id).length + (col.filterMap id).length :=
          Nat.add_lt_add_left hi' _
        have h2 : t * (col.filterMap id).length + (col.filterMap id).length =
            (t + 1) * (col.filterMap id).length := by ring
        have h3 : (t + 1) * (col.filterMap id).length ≤
            nIter * (col.filterMap id).length :=
          Nat.mul_le_mul_right _ (by omega)
        omega
      rw [hagree _ hlt]
    rw [hsam]
  have hdef1 : performBootstrapAnalysis col nIter d1 =
      { original_mean := listMean (col.filterMap id)
        bootstrap_means := bootstrapMeans (col.filterMap id) nIter d1
        ci_lower := npPercentile
          (bootstrapMeans (col.filterMap id) nIter d1) (5 / 2)
        ci_upper := npPercentile
          (bootstrapMeans (col.filterMap id) nIter d1) (195 / 2) } := rfl
  have hdef2 : performBootstrapAnalysis col nIter d2 =
      { original_mean := listMean (col.filterMap id)
        bootstrap_means := bootstrapMeans (col.filterMap id) nIter d2
        ci_lower := npPercentile
          (bootstrapMeans (col.filterMap id) nIter d2) (5 / 2)
        ci_upper := npPercentile
          (bootstrapMeans (col.filterMap id) nIter d2) (195 / 2) } := rfl
  rw [hdef1, hdef2, hmeans]

/-- C2 witness: two extensionally-agreeing draw streams give identical
bootstrap results on a one-cell column. -/
theorem bootstrap_deterministic_in_draws_witness :
    performBootstrapAnalysis [some (1 : ℚ)] 1 drawZero =
      performBootstrapAnalysis [some (1 : ℚ)] 1
        (fun i => if i < 1 then 0 else 7) :=
  bootstrap_deterministic_in_draws [some (1 : ℚ)] 1 drawZero
    (fun i => if i < 1 then 0 else 7)
    (fun i hi => by
      have : i = 0 := by
        simpa using Nat.lt_one_iff.mp (by simpa using hi)
      simp [this, drawZero])
